import Mathlib

/-!
Shallow embedding of `skrud_bot.py` (skrud/skrud-slack-bot).

Modelling conventions:
* Python strings are modelled as `List Char` (`Str` below); Python compares
  strings lexicographically by code point, which is `strLt` below.
* The per-date records returned by the data provider are used by the code only
  through the single close field selected by `key_name`, so a record is
  modelled as that close value, a rational number (`float` values are modelled
  as exact rationals).  A Python `dict` of dates is an association list with
  distinct keys, in insertion order.
* Python exceptions are modelled by `Except PyErr`; `ValueError`,
  `KeyError` and `IndexError` each get a constructor.
* `'{0:.2f}'.format(x)` is modelled by `format2`, fixed-point rendering with
  two decimal digits; the model rounds half away from zero on exact rationals
  where CPython rounds the nearest binary double half to even (the two agree
  on all values considered here, which are exact in cents).
* External collaborators (Alpha Vantage fetches, Slack, the render lambda) are
  modelled as parameters / emitted effects; `re` searches over the literal
  patterns of the source are modelled by explicit scanners with the leftmost,
  greedy, ordered-alternation semantics of `re.search`.
-/

namespace SkrudBot

/-- Python strings as lists of characters. -/
abbrev Str := List Char

/-- Python string `<` (lexicographic by code point), as in `sorted` and `max`. -/
def strLt : Str → Str → Bool
  | _, [] => false
  | [], _ :: _ => true
  | a :: as, b :: bs => if a < b then true else if b < a then false else strLt as bs

/-- Python string `<=`, the order used by `sorted(self.data.keys())`. -/
def strLe (a b : Str) : Prop := strLt b a = false

instance : DecidableRel strLe := fun a b => instDecidableEqBool (strLt b a) false

/-- Python exceptions that the bot's code paths can raise. -/
inductive PyErr where
  | valueError (msg : Str)
  | keyError
  | indexError
  /-- Modelled from the spec: the dedicated `EmptyDataError` that §4.3 and §7
  of the spec require for an empty date mapping.  No such error class exists
  anywhere in `skrud_bot.py`; the constructor exists only to compare the
  spec's design against the code's actual behaviour. -/
  | emptyDataError
  deriving DecidableEq, Repr

instance {ε : Type u_1} {α : Type u_2} [DecidableEq ε] [DecidableEq α] :
    DecidableEq (Except ε α) := fun a b =>
  match a, b with
  | .error x, .error y => if h : x = y then isTrue (by simp [h]) else isFalse (by simp [h])
  | .error _, .ok _ => isFalse (by simp)
  | .ok _, .error _ => isFalse (by simp)
  | .ok x, .ok y => if h : x = y then isTrue (by simp [h]) else isFalse (by simp [h])

/-- The message of the `ValueError` CPython raises for `max(())`. -/
def pyMaxEmptyMsg : Str := "max() arg is an empty sequence".toList

/-- Decimal digits of a natural number (fuel-driven so that it reduces). -/
def natDigitsAux : ℕ → ℕ → List Char → List Char
  | 0, _, acc => acc
  | fuel + 1, n, acc =>
    let c := Char.ofNat (48 + n % 10)
    if n < 10 then c :: acc else natDigitsAux fuel (n / 10) (c :: acc)

/-- `str(n)` for a natural number. -/
def natToStr (n : ℕ) : Str := natDigitsAux (n + 1) n []

/-- Two decimal digits with a leading zero, as fixed-point formatting pads. -/
def pad2 (n : ℕ) : Str := if n < 10 then '0' :: natToStr n else natToStr n

/-- Model of `'{0:.2f}'.format(x)`: fixed-point, two digits after the point. -/
def format2 (q : ℚ) : Str :=
  let n : ℤ := round (q * 100)
  (if n < 0 then ['-'] else []) ++ natToStr (n.natAbs / 100) ++ '.' :: pad2 (n.natAbs % 100)

/-- The date→close mapping fetched from the provider (a Python dict whose
records are used only through the close field named by `key_name`). -/
abbrev DataMap := List (Str × ℚ)

/-- `d[k]` read access on a Python dict (first matching key). -/
def lookup (k : Str) : DataMap → Option ℚ
  | [] => none
  | (k', v) :: rest => if k' = k then some v else lookup k rest

/-- `d[k] = v` on a Python dict for a key already present (used by the BTC
enrichment, which first reads `d[k]` and hence needs the key to exist). -/
def setKey (k : Str) (v : ℚ) : DataMap → DataMap
  | [] => []
  | (k', v') :: rest => if k' = k then (k', v) :: rest else (k', v') :: setKey k v rest

/-- `d.keys()` of a Python dict, in insertion order. -/
def keysOf (d : DataMap) : List Str := d.map Prod.fst

/-- One comparison step of Python `max`: replace the best-so-far only on a
strictly greater element (so the earlier element wins ties). -/
def maxStep (acc x : Str) : Str := if strLt acc x then x else acc

/-- `max(iterable)` of Python over strings: raises `ValueError` on an empty
iterable (modelled by `none`). -/
def pyMax (l : List Str) : Option Str :=
  match l with
  | [] => none
  | k :: ks => some (ks.foldl maxStep k)

/-- The state of an `Interval` object that the derived views read:
the fetched `_data` and the `interval_length` window (`None` or a number). -/
structure IntervalData where
  data : DataMap
  interval_length : Option ℕ
  deriving DecidableEq

/-- Python truthiness of an optional integer (`None` and `0` are falsy). -/
def truthyN : Option ℕ → Bool
  | some n => n != 0
  | none => false

/-- Python truthiness of an optional string (`None` and `''` are falsy). -/
def truthyS : Option Str → Bool
  | some s => !s.isEmpty
  | none => false

/-- `l[-n:]` of Python for `n ≥ 1`: the trailing `n` elements (the whole list
when `n` exceeds the length). -/
def takeLast (n : ℕ) (l : List Str) : List Str := l.drop (l.length - n)

/-- `sorted(self.data.keys())`: the ascending lexicographic sort. -/
def sortedKeys (d : DataMap) : List Str := List.insertionSort strLe (keysOf d)

/-- `Interval.dates` (`skrud_bot.py:82-89`): the sorted date keys, restricted
to the trailing `interval_length` entries when `interval_length` is truthy. -/
def dates (i : IntervalData) : List Str :=
  let ds := sortedKeys i.data
  if truthyN i.interval_length then takeLast (i.interval_length.getD 0) ds else ds

/-- `Interval.date_range` (`skrud_bot.py:91-93`): `dates[0], dates[-1]`;
indexing an empty list raises `IndexError`. -/
def date_range (i : IntervalData) : Except PyErr (Str × Str) :=
  match dates i with
  | [] => .error .indexError
  | d :: ds => .ok (d, List.getLastD ds d)

/-- `Interval.current_value` (`skrud_bot.py:63-68`): the close of the greatest
date key of the full mapping, two-decimal formatted.  `max` of an empty key
set raises `ValueError`; the subsequent dict index is modelled faithfully as
possibly raising `KeyError` (unreachable, since the max key is a key). -/
def current_value (i : IntervalData) : Except PyErr Str :=
  match pyMax (keysOf i.data) with
  | none => .error (.valueError pyMaxEmptyMsg)
  | some k =>
    match lookup k i.data with
    | some v => .ok (format2 v)
    | none => .error .keyError

/-- The list comprehension `[float(self.data[d][self.key_name]) for d in
self.dates]` of `mean_value` and `graph`.  Every windowed date is a key of
`data`, so the `getD 0` default is unreachable. -/
def closeValues (i : IntervalData) : List ℚ :=
  (dates i).map (fun d => (lookup d i.data).getD 0)

/-- `Interval.mean_value` (`skrud_bot.py:70-76`): the arithmetic mean of the
close values over the windowed dates, two-decimal formatted; the literal
string `'0.0'` when the windowed date list is empty. -/
def mean_value (i : IntervalData) : Str :=
  if (closeValues i).isEmpty then "0.0".toList
  else format2 ((closeValues i).sum / ((closeValues i).length : ℚ))

/-- The graph structure built by `StockData.graph` / `BtcData.graph`
(`skrud_bot.py:131-140`, `173-181`), which differ only in `ylabel`. -/
structure Graph where
  xaxis : List Str
  yaxis : List ℚ
  title : Str
  xlabel : Str
  ylabel : Str
  deriving DecidableEq

/-- `graph()`: unpacking `self.date_range` comes first and raises `IndexError`
on an empty windowed date list; otherwise the windowed dates and closes. -/
def graphOf (symbol ylabel : Str) (i : IntervalData) : Except PyErr Graph :=
  match date_range i with
  | .error e => .error e
  | .ok (s, e) =>
    .ok { xaxis := dates i
          yaxis := closeValues i
          title := symbol ++ " (".toList ++ s ++ " - ".toList ++ e ++ ")".toList
          xlabel := "Time".toList
          ylabel := ylabel }

/-! ### Message parsing (`_get_stock_symbol`, `_is_bitcoin`, `_find_interval`) -/

/-- Python `\w` on ASCII text: letters, digits, underscore.  (The `re` default
also matches non-ASCII word characters; the claims only involve ASCII.) -/
def isWordChar (c : Char) : Bool := c.isAlpha || c.isDigit || c = '_'

/-- The greedy `\w{,8}` capture: up to eight leading word characters. -/
def takeWord : ℕ → Str → Str
  | 0, _ => []
  | _ + 1, [] => []
  | n + 1, c :: cs => if isWordChar c then c :: takeWord n cs else []

/-- `re.search(r'\$(\w{,8})', text)` scanner: the leftmost `'$'` always starts
a match because the quantifier admits zero characters. -/
def scanDollar : Str → Option Str
  | [] => none
  | c :: cs => if c = '$' then some (takeWord 8 cs) else scanDollar cs

/-- `_get_stock_symbol` (`skrud_bot.py:192-201`): the captured group of the
first `'$'` match, upper-cased; `None` when the text has no `'$'`. -/
def _get_stock_symbol (text : Str) : Option Str :=
  (scanDollar text).map (List.map Char.toUpper)

/-- Whether `pat` occurs at the head of `s`. -/
def headMatches : Str → Str → Bool
  | [], _ => true
  | _ :: _, [] => false
  | a :: as, b :: bs => a = b && headMatches as bs

/-- Whether `pat` occurs contiguously anywhere in `s` (what a boolean use of
`re.search` over a literal pattern tests). -/
def containsSub (pat s : Str) : Bool :=
  match s with
  | [] => pat.isEmpty
  | _ :: cs => headMatches pat s || containsSub pat cs

/-- `_is_bitcoin` (`skrud_bot.py:204-206`): `re.search(r'(bitcoin|₿|btc)',
text)` used as a boolean.  The pattern is compiled with no flags, so the match
is case-sensitive. -/
def _is_bitcoin (text : Str) : Bool :=
  containsSub "bitcoin".toList text || containsSub "₿".toList text ||
    containsSub "btc".toList text

/-- Numeric value of a digit string, as `int()` computes it. -/
def digitsVal (l : Str) : ℕ := l.foldl (fun acc c => 10 * acc + (c.toNat - 48)) 0

/-- The ordered alternation `(days|weeks|months)` tried at the head of `rest`. -/
def matchUnit (rest : Str) : Option Str :=
  if headMatches "days".toList rest then some "days".toList
  else if headMatches "weeks".toList rest then some "weeks".toList
  else if headMatches "months".toList rest then some "months".toList
  else none

/-- One backtracking attempt of `\d{1,3}(days|weeks|months)` at a position,
taking exactly `k` digits. -/
def tryDigits (k : ℕ) (s : Str) : Option (ℕ × Str) :=
  let ds := s.take k
  if ds.length = k && ds.all (fun c => c.isDigit) then
    (matchUnit (s.drop k)).map (fun u => (digitsVal ds, u))
  else none

/-- `\d{1,3}(days|weeks|months)` anchored at a position: the greedy quantifier
prefers three digits, then backtracks to two, then one. -/
def matchIntervalAt (s : Str) : Option (ℕ × Str) :=
  match tryDigits 3 s with
  | some r => some r
  | none =>
    match tryDigits 2 s with
    | some r => some r
    | none => tryDigits 1 s

/-- `re.search(r'(\d{1,3})(days|weeks|months)', text)`: leftmost position wins. -/
def scanInterval : Str → Option (ℕ × Str)
  | [] => none
  | s@(_ :: t) =>
    match matchIntervalAt s with
    | some r => some r
    | none => scanInterval t

/-- `StockData.to_interval` (`skrud_bot.py:111-124`): the unit-word map with
the warned `'intraday'` fallback for unknown terms. -/
def to_interval (term : Str) : Str :=
  if term = "days".toList then "daily".toList
  else if term = "months".toList then "monthly".toList
  else if term = "weeks".toList then "weekly".toList
  else "intraday".toList

/-- `_find_interval` (`skrud_bot.py:209-221`): the parsed length and canonical
unit of the first interval phrase, `(None, None)` when nothing matches.
`int()` on one to three digits cannot raise, so the `except ValueError`
branch of the source is dead and the model is total. -/
def _find_interval (message_text : Str) : Option ℕ × Option Str :=
  match scanInterval message_text with
  | some (n, u) => (some n, some (to_interval u))
  | none => (none, none)

/-! ### `BtcData._load` enrichment and the handler -/

/-- The successful result of `fe.get_currency_exchange_rate`: the fields the
code reads (`'6. Last Refreshed'` and `'5. Exchange Rate'`, the latter as the
number it parses to). -/
structure ExchInfo where
  lastRefreshed : Str
  rate : ℚ
  deriving DecidableEq

/-- What `BtcData._load` leaves in `self._data` / `self._metadata`
(the metadata modelled by its only read field, `'6. Last Refreshed'`). -/
structure LoadedBtc where
  data : DataMap
  lastRefreshed6 : Option Str
  deriving DecidableEq

/-- `str.split(' ')`: split on each single space, keeping empty fields. -/
def splitOnSpace : Str → List Str
  | [] => [[]]
  | c :: cs =>
    if c = ' ' then [] :: splitOnSpace cs
    else
      match splitOnSpace cs with
      | [] => [[c]]
      | w :: ws => (c :: w) :: ws

/-- `BtcData._load` (`skrud_bot.py:153-166`), given the already-fetched digital
currency data/metadata and the outcome of the exchange-rate call.  The
`try` block catches only `ValueError`: a failed exchange-rate call raising
`ValueError` and a failed two-way unpack of the split timestamp are caught
and logged; reading `self._data[date_str]` for an absent date raises
`KeyError`, which propagates. -/
def btcLoad (base : DataMap) (metaLR : Option Str) (exch : Except PyErr ExchInfo) :
    Except PyErr LoadedBtc :=
  match exch with
  | .error (.valueError _) => .ok ⟨base, metaLR⟩
  | .error e => .error e
  | .ok cur =>
    match splitOnSpace cur.lastRefreshed with
    | [date_str, _] =>
      if (lookup date_str base).isSome then
        .ok ⟨setKey date_str cur.rate base, some cur.lastRefreshed⟩
      else .error .keyError
    | _ => .ok ⟨base, metaLR⟩

/-- The inbound Slack event fields the handler reads. -/
structure SlackEvent where
  text : Str
  channel : Str
  deriving DecidableEq

/-- The graph payload assembled for the render lambda (`skrud_bot.py:261-275`),
keeping the fields the code puts in. -/
structure GraphPayload where
  symbol : Str
  date : Option Str
  graph : Graph
  message_text : Str
  channel : Str
  interval : Str
  deriving DecidableEq

/-- The externally visible outbound calls of one invocation. -/
inductive Effect where
  | sendSlack (channel msg : Str)
  | invokeRender (payload : GraphPayload)
  deriving DecidableEq

/-- `str.format` of an optional string: `None` prints as `'None'`. -/
def pyFormatOpt : Option Str → Str
  | some s => s
  | none => "None".toList

/-- The reply of `skrud_bot.py:255-258`. -/
def quoteMessage (symbol curVal meanVal r0 r1 : Str) (lastR : Option Str) : Str :=
  "Current Value for ".toList ++ symbol ++ ": ".toList ++ curVal ++
    " Mean Value: ".toList ++ meanVal ++ " (Range: ".toList ++ r0 ++
    " - ".toList ++ r1 ++ ") (Last Refreshed: ".toList ++ pyFormatOpt lastR ++ ")".toList

/-- The error reply of `skrud_bot.py:249-252`. -/
def errMsg (symbol msg : Str) : Str :=
  "Error getting stock info for ".toList ++ symbol ++ ": ".toList ++ msg

/-- The apology reply of `skrud_bot.py:238-239`. -/
def noMatchMsg : Str :=
  "Could not find stock symbol or bitcoin in the message text.".toList

/-- The `interval` field of the graph payload (`skrud_bot.py:271-275`):
`'<length><unit>'` when both parsed values are truthy, else `'intraday'`. -/
def intervalField (ilen : Option ℕ) (iunit : Option Str) : Str :=
  if truthyN ilen && truthyS iunit then natToStr (ilen.getD 0) ++ iunit.getD []
  else "intraday".toList

/-- The mutually exclusive intents of the `if/elif/else` chain of
`skrud_bot.py:231-240`; a non-empty captured ticker is truthy, the empty
capture and `None` both fall through to the bitcoin test. -/
inductive Intent where
  | stock (symbol : Str)
  | crypto
  | noMatch
  deriving DecidableEq

/-- Whether a string is empty or opens with a non-word character (so that the
`\w{,8}` capture right after a `'$'` is empty). -/
def headWordFree : Str → Bool
  | [] => true
  | c :: _ => !isWordChar c

/-- The branch `lambda_handler` takes for a message text. -/
def dispatchIntent (text : Str) : Intent :=
  if truthyS (_get_stock_symbol text) then .stock ((_get_stock_symbol text).getD [])
  else if _is_bitcoin text then .crypto
  else .noMatch

/-- The quote/reply tail of `lambda_handler` (`skrud_bot.py:242-289`):
`sd.graph()` then `sd.current_value` inside a `try` that catches only
`ValueError` and turns it into an error reply; on success the reply message
is composed (its `date_range` reads are outside the `try` and would
propagate `IndexError`, though they cannot fail once `graph()` succeeded),
and the `nograph` test picks the direct reply or the render invocation. -/
def handleQuote (ev : SlackEvent) (symbol : Str) (i : IntervalData) (lastR : Option Str)
    (ylabel : Str) (ilen : Option ℕ) (iunit : Option Str) : Except PyErr (List Effect) :=
  match graphOf symbol ylabel i with
  | .error (.valueError m) => .ok [.sendSlack ev.channel (errMsg symbol m)]
  | .error e => .error e
  | .ok g =>
    match current_value i with
    | .error (.valueError m) => .ok [.sendSlack ev.channel (errMsg symbol m)]
    | .error e => .error e
    | .ok cv =>
      match date_range i with
      | .error e => .error e
      | .ok (r0, r1) =>
        let msg := quoteMessage symbol cv (mean_value i) r0 r1 lastR
        if containsSub "nograph".toList ev.text = false then
          .ok [.invokeRender
            { symbol := symbol, date := lastR, graph := g, message_text := msg,
              channel := ev.channel, interval := intervalField ilen iunit }]
        else .ok [.sendSlack ev.channel msg]

/-- `x or d` of Python on an optional length (`interval_length or 7`). -/
def pyOrN (o : Option ℕ) (d : ℕ) : ℕ :=
  match o with
  | some n => if n != 0 then n else d
  | none => d

/-- `lambda_handler` (`skrud_bot.py:224-291`), parameterised by the data the
provider fetch returns (`fetched`, with its last-refreshed metadata field
`metaLR`) and, for the crypto branch, the outcome of the exchange-rate call.
A `ValueError` raised lazily by `BtcData._load` inside `sd.graph()` is caught
by the handler's `try`; any other load error propagates. -/
def lambda_handler (ev : SlackEvent) (fetched : DataMap) (metaLR : Option Str)
    (exch : Except PyErr ExchInfo) : Except PyErr (List Effect) :=
  let p := _find_interval ev.text
  match dispatchIntent ev.text with
  | .stock symbol => handleQuote ev symbol ⟨fetched, p.1⟩ metaLR "$".toList p.1 p.2
  | .crypto =>
    match btcLoad fetched metaLR exch with
    | .error (.valueError m) => .ok [.sendSlack ev.channel (errMsg "BTC".toList m)]
    | .error e => .error e
    | .ok ld =>
      handleQuote ev "BTC".toList ⟨ld.data, some (pyOrN p.1 7)⟩ ld.lastRefreshed6
        "USD".toList p.1 p.2
  | .noMatch => .ok [.sendSlack ev.channel noMatchMsg]

/-- The three-date fixture of the spec examples, with closes 10, 20 and 30. -/
def exData : DataMap :=
  [("2024-01-01".toList, 10), ("2024-01-02".toList, 20), ("2024-01-03".toList, 30)]

/-! ### Order facts about the string comparison -/

theorem strLt_nil_right (a : Str) : strLt a [] = false := by
  cases a <;> rfl

theorem strLt_asymm : ∀ a b : Str, strLt a b = true → strLt b a = false := by
  intro a
  induction a with
  | nil =>
    intro b h
    cases b with
    | nil => simp [strLt] at h
    | cons d ds => simp [strLt]
  | cons c cs ih =>
    intro b h
    cases b with
    | nil => simp [strLt] at h
    | cons d ds =>
      simp only [strLt] at h ⊢
      by_cases hcd : c < d
      · simp [hcd, not_lt_of_gt hcd, lt_asymm hcd]
      · by_cases hdc : d < c
        · simp [hcd, hdc] at h
        · simp only [hcd, hdc, if_false] at h ⊢
          exact ih ds h

theorem strLt_trans : ∀ a b c : Str, strLt a b = true → strLt b c = true → strLt a c = true := by
  intro a
  induction a with
  | nil =>
    intro b c hab hbc
    cases c with
    | nil => cases b <;> simp [strLt] at hab hbc
    | cons e es => simp [strLt]
  | cons x xs ih =>
    intro b c hab hbc
    cases b with
    | nil => simp [strLt] at hab
    | cons y ys =>
      cases c with
      | nil => simp [strLt] at hbc
      | cons z zs =>
        simp only [strLt] at hab hbc ⊢
        by_cases hxy : x < y
        · by_cases hyz : y < z
          · simp [lt_trans hxy hyz]
          · by_cases hzy : z < y
            · simp [hyz, hzy] at hbc
            · have hyzeq : y = z := le_antisymm (not_lt.mp hzy) (not_lt.mp hyz)
              simp [hyzeq ▸ hxy]
        · by_cases hyx : y < x
          · simp [hxy, hyx] at hab
          · have hxyeq : x = y := le_antisymm (not_lt.mp hyx) (not_lt.mp hxy)
            subst hxyeq
            by_cases hyz : x < z
            · simp [hyz]
            · by_cases hzy : z < x
              · simp [hyz, hzy] at hbc
              · simp only [hxy, hyx, if_false] at hab
                simp only [hyz, hzy, if_false] at hbc ⊢
                exact ih ys zs hab hbc

theorem strLt_connex : ∀ a b : Str, strLt a b = false → strLt b a = false → a = b := by
  intro a
  induction a with
  | nil =>
    intro b hab _
    cases b with
    | nil => rfl
    | cons d ds => simp [strLt] at hab
  | cons c cs ih =>
    intro b hab hba
    cases b with
    | nil => simp [strLt] at hba
    | cons d ds =>
      simp only [strLt] at hab hba
      by_cases hcd : c < d
      · simp [hcd] at hab
      · by_cases hdc : d < c
        · simp [hdc] at hba
        · have heq : c = d := le_antisymm (not_lt.mp hdc) (not_lt.mp hcd)
          simp only [hcd, hdc, if_false] at hab hba
          exact heq ▸ congrArg (c :: ·) (ih ds hab hba)

theorem strLe_total (a b : Str) : strLe a b ∨ strLe b a := by
  unfold strLe
  by_cases h : strLt b a = true
  · exact Or.inr (strLt_asymm b a h)
  · exact Or.inl (Bool.not_eq_true _ ▸ h)

theorem strLe_trans {a b c : Str} (h1 : strLe a b) (h2 : strLe b c) : strLe a c := by
  unfold strLe at h1 h2 ⊢
  by_contra hne
  have hca : strLt c a = true := by
    cases h : strLt c a
    · exact absurd h hne
    · rfl
  rcases Bool.eq_false_or_eq_true (strLt b c) with hbc | hbc
  · have hba : strLt b a = true := strLt_trans b c a hbc hca
    simp [hba] at h1
  · have hbceq : b = c := strLt_connex b c hbc h2
    subst hbceq
    simp [hca] at h1

instance : IsTotal Str strLe := ⟨strLe_total⟩

instance : IsTrans Str strLe := ⟨fun _ _ _ => strLe_trans⟩

/-! ### Facts about `pyMax`, `lookup`, `dates` -/

theorem strLe_refl (a : Str) : strLe a a := Or.elim (strLe_total a a) id id

theorem foldMax_spec (ks : List Str) :
    ∀ acc : Str,
      (ks.foldl maxStep acc = acc ∨ ks.foldl maxStep acc ∈ ks) ∧
        strLe acc (ks.foldl maxStep acc) ∧ ∀ k ∈ ks, strLe k (ks.foldl maxStep acc) := by
  induction ks with
  | nil => exact fun acc => ⟨Or.inl rfl, strLe_refl acc, by simp⟩
  | cons x ks ih =>
    intro acc
    simp only [List.foldl_cons]
    by_cases hax : strLt acc x = true
    · rw [show maxStep acc x = x from by simp [maxStep, hax]]
      rcases ih x with ⟨hmem, hacc, hall⟩
      have haccx : strLe acc x := strLt_asymm acc x hax
      refine ⟨?_, strLe_trans haccx hacc, ?_⟩
      · rcases hmem with h | h
        · exact Or.inr (by rw [h]; exact List.mem_cons_self x ks)
        · exact Or.inr (List.mem_cons_of_mem x h)
      · intro k hk
        rcases List.mem_cons.mp hk with rfl | hk
        · exact hacc
        · exact hall k hk
    · rw [show maxStep acc x = acc from by simp [maxStep, hax]]
      rcases ih acc with ⟨hmem, hacc, hall⟩
      have hxacc : strLe x acc := by
        unfold strLe
        exact Bool.not_eq_true _ ▸ hax
      refine ⟨?_, hacc, ?_⟩
      · rcases hmem with h | h
        · exact Or.inl h
        · exact Or.inr (List.mem_cons_of_mem x h)
      · intro k hk
        rcases List.mem_cons.mp hk with rfl | hk
        · exact strLe_trans hxacc hacc
        · exact hall k hk

/-- `max` over a non-empty key list returns a member that every key is `≤`. -/
theorem pyMax_spec (l : List Str) (h : l ≠ []) :
    ∃ m, pyMax l = some m ∧ m ∈ l ∧ ∀ k ∈ l, strLe k m := by
  match l, h with
  | k :: ks, _ =>
    rcases foldMax_spec ks k with ⟨hmem, hacc, hall⟩
    refine ⟨_, rfl, ?_, ?_⟩
    · rcases hmem with h | h
      · rw [h]; exact List.mem_cons_self k ks
      · exact List.mem_cons_of_mem k h
    · intro x hx
      rcases List.mem_cons.mp hx with rfl | hx
      · exact hacc
      · exact hall x hx

theorem lookup_isSome_of_mem {k : Str} :
    ∀ d : DataMap, k ∈ keysOf d → ∃ v, lookup k d = some v := by
  intro d
  induction d with
  | nil => simp [keysOf]
  | cons p rest ih =>
    intro hk
    by_cases hpk : p.1 = k
    · exact ⟨p.2, by simp [lookup, hpk]⟩
    · have : k ∈ keysOf rest := by
        rcases List.mem_cons.mp hk with h | h
        · exact absurd h.symm hpk
        · exact h
      rcases ih this with ⟨v, hv⟩
      exact ⟨v, by simpa [lookup, hpk] using hv⟩

theorem sortedKeys_perm (d : DataMap) : (sortedKeys d).Perm (keysOf d) :=
  List.perm_insertionSort strLe (keysOf d)

theorem sortedKeys_sorted (d : DataMap) : (sortedKeys d).Sorted strLe :=
  List.sorted_insertionSort strLe (keysOf d)

theorem sortedKeys_length (d : DataMap) : (sortedKeys d).length = d.length := by
  rw [(sortedKeys_perm d).length_eq]
  simp [keysOf]

theorem takeLast_length (n : ℕ) (l : List Str) :
    (takeLast n l).length = l.length - (l.length - n) := by
  simp [takeLast]

/-- The windowed date list of a non-empty mapping is non-empty. -/
theorem dates_ne_nil (i : IntervalData) (h : i.data ≠ []) : dates i ≠ [] := by
  have hlen : 0 < (sortedKeys i.data).length := by
    rw [sortedKeys_length]
    exact List.length_pos.mpr h
  intro hnil
  unfold dates at hnil
  by_cases ht : truthyN i.interval_length = true
  · rw [if_pos ht] at hnil
    have hn : 0 < i.interval_length.getD 0 := by
      cases hi : i.interval_length with
      | none => rw [hi] at ht; simp [truthyN] at ht
      | some n =>
        rw [hi] at ht
        simp only [truthyN, bne_iff_ne, ne_eq] at ht
        simpa using Nat.pos_of_ne_zero ht
    have : 0 < (takeLast (i.interval_length.getD 0) (sortedKeys i.data)).length := by
      rw [takeLast_length]
      exact Nat.sub_pos_of_lt (Nat.sub_lt hlen hn)
    rw [hnil] at this
    simp at this
  · rw [if_neg ht] at hnil
    rw [hnil] at hlen
    simp at hlen

/-- Every windowed date is a key of the mapping. -/
theorem dates_subset_keys (i : IntervalData) : ∀ d ∈ dates i, d ∈ keysOf i.data := by
  intro d hd
  have hsub : d ∈ sortedKeys i.data := by
    unfold dates at hd
    by_cases ht : truthyN i.interval_length = true
    · rw [if_pos ht] at hd
      exact List.drop_subset _ _ hd
    · rwa [if_neg ht] at hd
  exact (sortedKeys_perm i.data).mem_iff.mp hsub

/-- On a non-empty mapping `current_value` succeeds with the two-decimal close
of the greatest key. -/
theorem current_value_spec (i : IntervalData) (h : i.data ≠ []) :
    ∃ m v, pyMax (keysOf i.data) = some m ∧ m ∈ keysOf i.data ∧
      (∀ k ∈ keysOf i.data, strLe k m) ∧ lookup m i.data = some v ∧
      current_value i = .ok (format2 v) := by
  have hkeys : keysOf i.data ≠ [] := by
    intro hk
    exact h (by simpa [keysOf] using congrArg List.length hk)
  rcases pyMax_spec (keysOf i.data) hkeys with ⟨m, hm, hmem, hall⟩
  rcases lookup_isSome_of_mem i.data hmem with ⟨v, hv⟩
  exact ⟨m, v, hm, hmem, hall, hv, by simp [current_value, hm, hv]⟩

/-- On a non-empty windowed date list `date_range` succeeds. -/
theorem date_range_ok (i : IntervalData) (h : dates i ≠ []) :
    ∃ r0 r1, date_range i = .ok (r0, r1) := by
  unfold date_range
  cases hd : dates i with
  | nil => exact absurd hd h
  | cons d ds => exact ⟨d, List.getLastD ds d, rfl⟩

/-- On a non-empty windowed date list `graph()` succeeds. -/
theorem graphOf_ok (symbol ylabel : Str) (i : IntervalData) (h : dates i ≠ []) :
    ∃ g, graphOf symbol ylabel i = .ok g := by
  rcases date_range_ok i h with ⟨r0, r1, hr⟩
  unfold graphOf
  rw [hr]
  exact ⟨_, rfl⟩

/-! ### Facts about the scanners -/

theorem scanDollar_append {pre : Str} (s : Str) (h : '$' ∉ pre) :
    scanDollar (pre ++ s) = scanDollar s := by
  induction pre with
  | nil => rfl
  | cons c cs ih =>
    have hc : c ≠ '$' := fun hc => h (hc ▸ List.mem_cons_self c cs)
    have hcs : '$' ∉ cs := fun hm => h (List.mem_cons_of_mem c hm)
    simp only [List.cons_append, scanDollar, if_neg hc]
    exact ih hcs

theorem takeWord_head_free {post : Str} (n : ℕ) (h : headWordFree post = true) :
    takeWord n post = [] := by
  cases n with
  | zero => rfl
  | succ n =>
    cases post with
    | nil => rfl
    | cons c cs =>
      simp only [headWordFree, Bool.not_eq_true'] at h
      simp [takeWord, h]

theorem takeWord_all_word :
    ∀ (n : ℕ) (cs rest : Str), (∀ c ∈ cs, isWordChar c = true) → n ≤ cs.length →
      takeWord n (cs ++ rest) = cs.take n := by
  intro n
  induction n with
  | zero => intro cs rest _ _; simp [takeWord]
  | succ n ih =>
    intro cs rest hword hlen
    cases cs with
    | nil => simp at hlen
    | cons c cs =>
      have hc : isWordChar c = true := hword c (List.mem_cons_self c cs)
      simp only [List.cons_append, takeWord, if_pos hc, List.take_succ_cons]
      exact congrArg (c :: ·) (ih cs rest (fun x hx => hword x (List.mem_cons_of_mem c hx))
        (Nat.succ_le_succ_iff.mp hlen))

theorem matchUnit_cases {r u : Str} (h : matchUnit r = some u) :
    u = "days".toList ∨ u = "weeks".toList ∨ u = "months".toList := by
  unfold matchUnit at h
  split_ifs at h with h1 h2 h3
  · exact Or.inl (Option.some.inj h).symm
  · exact Or.inr (Or.inl (Option.some.inj h).symm)
  · exact Or.inr (Or.inr (Option.some.inj h).symm)

theorem tryDigits_unit {k : ℕ} {s u : Str} {n : ℕ} (h : tryDigits k s = some (n, u)) :
    u = "days".toList ∨ u = "weeks".toList ∨ u = "months".toList := by
  unfold tryDigits at h
  by_cases hc : ((s.take k).length = k && (s.take k).all (fun c => c.isDigit)) = true
  · rw [if_pos hc] at h
    cases hmu : matchUnit (s.drop k) with
    | none => rw [hmu] at h; simp at h
    | some u0 =>
      rw [hmu] at h
      simp only [Option.map_some'] at h
      have : u0 = u := (Prod.mk.injEq _ _ _ _ ▸ Option.some.inj h).2
      exact this ▸ matchUnit_cases hmu
  · rw [if_neg hc] at h
    simp at h

theorem matchIntervalAt_unit {s u : Str} {n : ℕ} (h : matchIntervalAt s = some (n, u)) :
    u = "days".toList ∨ u = "weeks".toList ∨ u = "months".toList := by
  unfold matchIntervalAt at h
  cases h3 : tryDigits 3 s with
  | some r => rw [h3] at h; exact tryDigits_unit (h3.trans (congrArg some (Option.some.inj h)))
  | none =>
    rw [h3] at h
    simp only at h
    cases h2 : tryDigits 2 s with
    | some r => rw [h2] at h; exact tryDigits_unit (h2.trans (congrArg some (Option.some.inj h)))
    | none =>
      rw [h2] at h
      simp only at h
      exact tryDigits_unit h

theorem scanInterval_unit :
    ∀ {t u : Str} {n : ℕ}, scanInterval t = some (n, u) →
      u = "days".toList ∨ u = "weeks".toList ∨ u = "months".toList := by
  intro t
  induction t with
  | nil => intro u n h; simp [scanInterval] at h
  | cons c cs ih =>
    intro u n h
    unfold scanInterval at h
    cases hm : matchIntervalAt (c :: cs) with
    | some r =>
      rw [hm] at h
      exact matchIntervalAt_unit (hm.trans (congrArg some (Option.some.inj h)))
    | none =>
      rw [hm] at h
      exact ih h

/-! ### Claim C1 -/

/-- C1, counterexample: on the empty date mapping, `current_value` does not
raise a dedicated empty-data error; it propagates the generic `ValueError`
of the underlying `max()` call. -/
theorem c1_counterexample :
    current_value ⟨[], none⟩ = .error (.valueError pyMaxEmptyMsg) ∧
      current_value ⟨[], none⟩ ≠ .error .emptyDataError := by decide

/-- C1, amended: for every empty data mapping, accessing `current_value`
raises the generic `ValueError('max() arg is an empty sequence')` coming from
the `max` call over the empty key set; no dedicated `EmptyDataError` exists in
the code (the failure is then caught at the dispatch boundary only because it
happens to be a `ValueError`). -/
theorem c1_amended (i : IntervalData) (h : i.data = []) :
    current_value i = .error (.valueError pyMaxEmptyMsg) := by
  simp [current_value, h, keysOf, pyMax]

/-- C1, witness: the amended theorem applied to the empty mapping. -/
theorem c1_witness :
    (IntervalData.mk [] none).data = [] ∧
      current_value ⟨[], none⟩ = .error (.valueError pyMaxEmptyMsg) :=
  ⟨rfl, c1_amended ⟨[], none⟩ rfl⟩

/-! ### Claim C2 -/

/-- C2, counterexample: the text `"BTC"` contains the bitcoin keyword
case-insensitively and has no stock ticker, yet `_is_bitcoin` reports no
match (the pattern is compiled without `re.IGNORECASE`) and the dispatcher
falls through to the apology branch. -/
theorem c2_counterexample :
    containsSub "btc".toList ("BTC".toList.map Char.toLower) = true ∧
      _get_stock_symbol "BTC".toList = none ∧
      _is_bitcoin "BTC".toList = false ∧
      dispatchIntent "BTC".toList = .noMatch := by decide

/-- C2, amended: the crypto match is case-sensitive.  For every text that
contains the literal lowercase `"bitcoin"`, the symbol `"₿"`, or the literal
lowercase `"btc"`, and whose ticker capture is falsy, the extractor reports a
crypto intent and dispatch takes the crypto branch. -/
theorem c2_amended (t : Str)
    (hname : containsSub "bitcoin".toList t = true ∨ containsSub "₿".toList t = true ∨
      containsSub "btc".toList t = true)
    (hno : truthyS (_get_stock_symbol t) = false) :
    _is_bitcoin t = true ∧ dispatchIntent t = .crypto := by
  have hbit : _is_bitcoin t = true := by
    unfold _is_bitcoin
    rcases hname with h | h | h <;> rw [h] <;> simp
  exact ⟨hbit, by simp [dispatchIntent, hno, hbit]⟩

/-- C2, witness: the amended theorem applied to `"buy btc now"`. -/
theorem c2_witness :
    (containsSub "bitcoin".toList "buy btc now".toList = true ∨
        containsSub "₿".toList "buy btc now".toList = true ∨
        containsSub "btc".toList "buy btc now".toList = true) ∧
      truthyS (_get_stock_symbol "buy btc now".toList) = false ∧
      (_is_bitcoin "buy btc now".toList = true ∧
        dispatchIntent "buy btc now".toList = .crypto) :=
  ⟨by decide, by decide, c2_amended "buy btc now".toList (by decide) (by decide)⟩

/-! ### Claim C3 -/

/-- C3, counterexample: for `"3decades"` the interval extractor returns
`(None, None)`, not `(3, 'intraday')`: the regular expression only matches
the three known unit words, so an unrecognized unit never reaches the
`to_interval` fallback. -/
theorem c3_counterexample :
    _find_interval "3decades".toList = (none, none) ∧
      _find_interval "3decades".toList ≠ (some 3, some "intraday".toList) := by decide

/-- C3, amended: every successful interval extraction carries one of the
three canonical units (the `'intraday'` fallback of `to_interval` is
unreachable from `_find_interval`, whose regex only matches
`days|weeks|months`); `"14days"` gives `(14, 'daily')`, `"200weeks"` gives
`(200, 'weekly')`, `"3decades"` gives `(None, None)` rather than an error,
and `to_interval` itself maps the unrecognized `'decades'` to `'intraday'`. -/
theorem c3_amended :
    (∀ (t : Str) (n : ℕ) (u : Str), _find_interval t = (some n, some u) →
        u = "daily".toList ∨ u = "weekly".toList ∨ u = "monthly".toList) ∧
      _find_interval "14days".toList = (some 14, some "daily".toList) ∧
      _find_interval "200weeks".toList = (some 200, some "weekly".toList) ∧
      _find_interval "3decades".toList = (none, none) ∧
      to_interval "decades".toList = "intraday".toList := by
  refine ⟨?_, by decide, by decide, by decide, by decide⟩
  intro t n u h
  unfold _find_interval at h
  cases hs : scanInterval t with
  | none => rw [hs] at h; simp at h
  | some r =>
    rw [hs] at h
    obtain ⟨n0, u0⟩ := r
    simp only [Prod.mk.injEq] at h
    have hu : u = to_interval u0 := (Option.some.inj h.2).symm
    rcases scanInterval_unit hs with h0 | h0 | h0 <;> rw [hu, h0] <;> decide

/-- C3, witness: the general unit conjunct applied to `"14days"`. -/
theorem c3_witness :
    _find_interval "14days".toList = (some 14, some "daily".toList) ∧
      ("daily".toList = "daily".toList ∨ "daily".toList = "weekly".toList ∨
        "daily".toList = "monthly".toList) :=
  ⟨by decide, c3_amended.1 "14days".toList 14 "daily".toList (by decide)⟩

/-! ### Claim C4 -/

/-- C4, counterexample: on an empty windowed date list `mean_value` yields the
literal string `"0.0"`, not the two-decimal `"0.00"` the claim states. -/
theorem c4_counterexample :
    mean_value ⟨[], none⟩ = "0.0".toList ∧ mean_value ⟨[], none⟩ ≠ "0.00".toList := by decide

/-- C4, amended: for every non-empty windowed date list, `mean_value` is the
two-decimal-formatted arithmetic mean of the close values over the windowed
dates (closes 10, 20, 30 give `"20.00"`); for an empty windowed list it
yields the string `"0.0"` (only one decimal digit). -/
theorem c4_amended :
    (∀ i : IntervalData,
        (dates i ≠ [] →
          mean_value i = format2 ((closeValues i).sum / ((closeValues i).length : ℚ))) ∧
        (dates i = [] → mean_value i = "0.0".toList)) ∧
      mean_value ⟨exData, none⟩ = "20.00".toList := by
  constructor
  · intro i
    constructor
    · intro h
      have hne : closeValues i ≠ [] := by
        simpa [closeValues, List.map_eq_nil_iff] using h
      simp [mean_value, List.isEmpty_iff, hne]
    · intro h
      have he : closeValues i = [] := by simp [closeValues, h]
      simp [mean_value, List.isEmpty_iff, he]
  · have h1 : mean_value ⟨exData, none⟩ =
        format2 (([10, 20, 30] : List ℚ).sum / ((3 : ℕ) : ℚ)) := rfl
    rw [h1, show (([10, 20, 30] : List ℚ).sum / ((3 : ℕ) : ℚ)) = 20 by norm_num]
    unfold format2
    rw [show round ((20 : ℚ) * 100) = 2000 by norm_num [round_eq]]
    decide

/-- C4, witness: the non-empty branch of the amended theorem applied to the
three-date fixture. -/
theorem c4_witness :
    dates ⟨exData, none⟩ ≠ [] ∧
      mean_value ⟨exData, none⟩ =
        format2 ((closeValues ⟨exData, none⟩).sum /
          ((closeValues ⟨exData, none⟩).length : ℚ)) :=
  ⟨by decide, (c4_amended.1 ⟨exData, none⟩).1 (by decide)⟩

/-! ### Claim C5 -/

/-- C5: on every non-empty data mapping, `current_value` is the two-decimal
close of the lexicographically greatest date key of the full mapping, and it
is unchanged by the window length. -/
theorem c5_current_value (data : DataMap) (n n' : Option ℕ) (h : data ≠ []) :
    current_value ⟨data, n⟩ = current_value ⟨data, n'⟩ ∧
      ∃ m v, pyMax (keysOf data) = some m ∧ m ∈ keysOf data ∧
        (∀ k ∈ keysOf data, strLe k m) ∧ lookup m data = some v ∧
        current_value ⟨data, n⟩ = .ok (format2 v) := by
  refine ⟨rfl, ?_⟩
  rcases current_value_spec ⟨data, n⟩ h with ⟨m, v, h1, h2, h3, h4, h5⟩
  exact ⟨m, v, h1, h2, h3, h4, h5⟩

/-- C5, witness: the theorem applied to the three-date fixture with window
length 2 against no window. -/
theorem c5_witness :
    exData ≠ [] ∧
      (current_value ⟨exData, some 2⟩ = current_value ⟨exData, none⟩ ∧
        ∃ m v, pyMax (keysOf exData) = some m ∧ m ∈ keysOf exData ∧
          (∀ k ∈ keysOf exData, strLe k m) ∧ lookup m exData = some v ∧
          current_value ⟨exData, some 2⟩ = .ok (format2 v)) :=
  ⟨by decide, c5_current_value exData (some 2) none (by decide)⟩

/-! ### Claim C6 -/

/-- C6, counterexample: a given window length of 0 is falsy in Python, so the
windowing is silently skipped: for a one-date mapping and window length 0 the
date list is the full sorted list, not the trailing-zero (empty) suffix the
claim prescribes for a given length. -/
theorem c6_counterexample :
    dates ⟨[("2024-01-01".toList, 10)], some 0⟩ = ["2024-01-01".toList] ∧
      dates ⟨[("2024-01-01".toList, 10)], some 0⟩ ≠
        takeLast 0 (sortedKeys [("2024-01-01".toList, 10)]) := by decide

/-- C6, amended: the date list is the ascending lexicographic sort of the
keys (sorted, and a permutation of the keys); a *nonzero* window length keeps
the trailing entries, a length at least the mapping size is a silent no-op,
and a length of zero or `None` leaves the full list; for the three-date
fixture and window length 2 the range is `('2024-01-02', '2024-01-03')`. -/
theorem c6_amended :
    (∀ d : DataMap, (sortedKeys d).Sorted strLe ∧ (sortedKeys d).Perm (keysOf d)) ∧
      (∀ (d : DataMap) (n : ℕ), 1 ≤ n → dates ⟨d, some n⟩ = takeLast n (sortedKeys d)) ∧
      (∀ (d : DataMap) (n : ℕ), d.length ≤ n → takeLast n (sortedKeys d) = sortedKeys d) ∧
      (∀ d : DataMap, dates ⟨d, none⟩ = sortedKeys d ∧ dates ⟨d, some 0⟩ = sortedKeys d) ∧
      date_range ⟨exData, some 2⟩ = .ok ("2024-01-02".toList, "2024-01-03".toList) := by
  refine ⟨fun d => ⟨sortedKeys_sorted d, sortedKeys_perm d⟩, ?_, ?_,
    fun d => ⟨rfl, rfl⟩, by decide⟩
  · intro d n hn
    have ht : truthyN (some n) = true := by
      simp only [truthyN, bne_iff_ne, ne_eq]
      omega
    simp [dates, ht]
  · intro d n hlen
    unfold takeLast
    rw [sortedKeys_length, Nat.sub_eq_zero_of_le hlen, List.drop_zero]

/-- C6, witness: the nonzero-window conjunct applied to the fixture with
window length 2. -/
theorem c6_witness :
    1 ≤ 2 ∧ dates ⟨exData, some 2⟩ = takeLast 2 (sortedKeys exData) :=
  ⟨by decide, c6_amended.2.1 exData 2 (by decide)⟩

/-! ### Claim C7 -/

/-- C7, counterexample: a successful exchange-rate fetch whose refresh date is
absent from the fetched time series makes the synthetic-point injection raise
`KeyError`, which the `except ValueError` clause does not catch: the failure
propagates instead of the quote being built from the pre-enrichment data. -/
theorem c7_counterexample :
    btcLoad [("2024-01-01".toList, 5)] none (.ok ⟨"2024-01-02 00:00:00".toList, 42⟩) =
        .error .keyError ∧
      btcLoad [("2024-01-01".toList, 5)] none (.ok ⟨"2024-01-02 00:00:00".toList, 42⟩) ≠
        .ok ⟨[("2024-01-01".toList, 5)], none⟩ := by decide

/-- C7, amended: only `ValueError` failures of the enrichment are caught and
logged (a `ValueError` from the exchange-rate call, and a timestamp whose
space-split does not have exactly two fields), in which case the quote data is
exactly the pre-enrichment fetch; injecting the synthetic point for a date
that is not a key of the fetched data raises `KeyError`, which propagates. -/
theorem c7_amended (base : DataMap) (metaLR : Option Str) :
    (∀ msg : Str, btcLoad base metaLR (.error (.valueError msg)) = .ok ⟨base, metaLR⟩) ∧
      (∀ cur : ExchInfo, (splitOnSpace cur.lastRefreshed).length ≠ 2 →
        btcLoad base metaLR (.ok cur) = .ok ⟨base, metaLR⟩) ∧
      (∀ (cur : ExchInfo) (d rest : Str), splitOnSpace cur.lastRefreshed = [d, rest] →
        (lookup d base).isSome = false → btcLoad base metaLR (.ok cur) = .error .keyError) := by
  refine ⟨fun msg => rfl, ?_, ?_⟩
  · intro cur hlen
    cases hs : splitOnSpace cur.lastRefreshed with
    | nil => simp [btcLoad, hs]
    | cons a t =>
      cases t with
      | nil => simp [btcLoad, hs]
      | cons b t2 =>
        cases t2 with
        | nil => exact absurd (by simp [hs]) hlen
        | cons c t3 => simp [btcLoad, hs]
  · intro cur d rest hs hlook
    simp [btcLoad, hs, hlook]

/-- C7, witness: the `KeyError` conjunct applied to a one-date mapping and an
exchange refresh timestamp on the following day. -/
theorem c7_witness :
    splitOnSpace "2024-02-03 10:00:00".toList = ["2024-02-03".toList, "10:00:00".toList] ∧
      (lookup "2024-02-03".toList [("2024-02-02".toList, 7)]).isSome = false ∧
      btcLoad [("2024-02-02".toList, 7)] none (.ok ⟨"2024-02-03 10:00:00".toList, 9⟩) =
        .error .keyError :=
  ⟨by decide, by decide,
    (c7_amended [("2024-02-02".toList, 7)] none).2.2 ⟨"2024-02-03 10:00:00".toList, 9⟩
      "2024-02-03".toList "10:00:00".toList (by decide) (by decide)⟩

/-! ### Claim C8 -/

/-- C8: for every successfully built quote (any non-empty data mapping), if
the message text contains the literal `"nograph"` the dispatch emits exactly
one direct Slack reply and never invokes the render lambda; otherwise it
emits exactly one render invocation and no direct reply. -/
theorem c8_nograph_dispatch (ev : SlackEvent) (symbol : Str) (i : IntervalData)
    (lastR : Option Str) (ylabel : Str) (ilen : Option ℕ) (iunit : Option Str)
    (h : i.data ≠ []) :
    (containsSub "nograph".toList ev.text = true →
      ∃ m, handleQuote ev symbol i lastR ylabel ilen iunit = .ok [.sendSlack ev.channel m]) ∧
      (containsSub "nograph".toList ev.text = false →
        ∃ p, handleQuote ev symbol i lastR ylabel ilen iunit = .ok [.invokeRender p]) := by
  have hd : dates i ≠ [] := dates_ne_nil i h
  rcases graphOf_ok symbol ylabel i hd with ⟨g, hg⟩
  rcases current_value_spec i h with ⟨m, v, _, _, _, _, hcv⟩
  rcases date_range_ok i hd with ⟨r0, r1, hr⟩
  simp only [handleQuote, hg, hcv, hr]
  constructor
  · intro hng
    rw [hng, if_neg (show ¬(true = false) by simp)]
    exact ⟨_, rfl⟩
  · intro hng
    rw [hng, if_pos rfl]
    exact ⟨_, rfl⟩

/-- C8, witness: the direct-reply branch on a one-date mapping and a message
containing `"nograph"`. -/
theorem c8_witness :
    (IntervalData.mk [("2024-01-01".toList, 10)] none).data ≠ [] ∧
      containsSub "nograph".toList "$A nograph".toList = true ∧
      ∃ m, handleQuote ⟨"$A nograph".toList, "C".toList⟩ "A".toList
          ⟨[("2024-01-01".toList, 10)], none⟩ none "$".toList none none =
        .ok [.sendSlack "C".toList m] :=
  ⟨by decide, by decide,
    (c8_nograph_dispatch ⟨"$A nograph".toList, "C".toList⟩ "A".toList
      ⟨[("2024-01-01".toList, 10)], none⟩ none "$".toList none none (by decide)).1
      (by decide)⟩

/-! ### Claim C9 -/

/-- C9: the ticker extractor matches at the first `'$'` and returns the
following word characters upper-cased, capped at eight: for every text whose
first `'$'` is followed by `AAPL` and then a non-word character (or the end),
it returns `"AAPL"`; when the first `'$'` is followed by nine or more word
characters, only the first eight are captured. -/
theorem c9_ticker_extractor :
    (∀ pre post : Str, '$' ∉ pre → headWordFree post = true →
        _get_stock_symbol (pre ++ '$' :: ("AAPL".toList ++ post)) = some "AAPL".toList) ∧
      (∀ pre cs rest : Str, '$' ∉ pre → (∀ c ∈ cs, isWordChar c = true) → 9 ≤ cs.length →
        _get_stock_symbol (pre ++ '$' :: (cs ++ rest)) =
          some ((cs.take 8).map Char.toUpper)) := by
  constructor
  · intro pre post hpre hpost
    unfold _get_stock_symbol
    rw [scanDollar_append _ hpre]
    have h1 : scanDollar ('$' :: ("AAPL".toList ++ post)) =
        some ('A' :: 'A' :: 'P' :: 'L' :: takeWord 4 post) := rfl
    rw [h1, takeWord_head_free 4 hpost]
    rfl
  · intro pre cs rest hpre hword hlen
    unfold _get_stock_symbol
    rw [scanDollar_append _ hpre]
    have h1 : scanDollar ('$' :: (cs ++ rest)) = some (takeWord 8 (cs ++ rest)) := by
      simp [scanDollar]
    rw [h1, takeWord_all_word 8 cs rest hword (by omega)]
    rfl

/-- C9, witness: the `$AAPL` conjunct applied to `"hi $AAPL!"`. -/
theorem c9_witness :
    '$' ∉ "hi ".toList ∧ headWordFree "!".toList = true ∧
      _get_stock_symbol ("hi ".toList ++ '$' :: ("AAPL".toList ++ "!".toList)) =
        some "AAPL".toList :=
  ⟨by decide, by decide, c9_ticker_extractor.1 "hi ".toList "!".toList (by decide) (by decide)⟩

/-! ### Claim C10 -/

/-- C10: when the first `'$'` of the text is followed by zero word characters,
the ticker extractor returns the empty string (not `None`); the dispatcher
treats that empty string as falsy, so such a text takes the crypto branch when
a crypto keyword matches and otherwise draws the apology reply, despite the
`'$'` being present. -/
theorem c10_empty_capture (pre post : Str) (hpre : '$' ∉ pre)
    (hpost : headWordFree post = true) :
    _get_stock_symbol (pre ++ '$' :: post) = some [] ∧
      dispatchIntent (pre ++ '$' :: post) =
        (if _is_bitcoin (pre ++ '$' :: post) then Intent.crypto else Intent.noMatch) ∧
      (∀ (ch : Str) (fetched : DataMap) (metaLR : Option Str)
          (exch : Except PyErr ExchInfo),
        _is_bitcoin (pre ++ '$' :: post) = false →
          lambda_handler ⟨pre ++ '$' :: post, ch⟩ fetched metaLR exch =
            .ok [.sendSlack ch noMatchMsg]) := by
  have hsym : _get_stock_symbol (pre ++ '$' :: post) = some [] := by
    unfold _get_stock_symbol
    rw [scanDollar_append _ hpre]
    have h1 : scanDollar ('$' :: post) = some (takeWord 8 post) := by simp [scanDollar]
    rw [h1, takeWord_head_free 8 hpost]
    rfl
  have htr : truthyS (_get_stock_symbol (pre ++ '$' :: post)) = false := by
    rw [hsym]
    rfl
  refine ⟨hsym, ?_, ?_⟩
  · simp [dispatchIntent, htr]
  · intro ch fetched metaLR exch hbit
    have hint : dispatchIntent (pre ++ '$' :: post) = .noMatch := by
      simp [dispatchIntent, htr, hbit]
    simp [lambda_handler, hint]

/-- C10, witness: the theorem applied to `"cost $ now"`, which has no crypto
keyword, so the dispatcher sends the apology. -/
theorem c10_witness :
    '$' ∉ "cost ".toList ∧ headWordFree " now".toList = true ∧
      (_get_stock_symbol ("cost ".toList ++ '$' :: " now".toList) = some [] ∧
        dispatchIntent ("cost ".toList ++ '$' :: " now".toList) =
          (if _is_bitcoin ("cost ".toList ++ '$' :: " now".toList) then Intent.crypto
            else Intent.noMatch) ∧
        (∀ (ch : Str) (fetched : DataMap) (metaLR : Option Str)
            (exch : Except PyErr ExchInfo),
          _is_bitcoin ("cost ".toList ++ '$' :: " now".toList) = false →
            lambda_handler ⟨"cost ".toList ++ '$' :: " now".toList, ch⟩ fetched metaLR exch =
              .ok [.sendSlack ch noMatchMsg])) :=
  ⟨by decide, by decide, c10_empty_capture "cost ".toList " now".toList (by decide) (by decide)⟩

end SkrudBot
